import Mathlib

/-!
Verification of the backward-induction value-function solver of the respy /
robupy repository.

The first part embeds `src/robupy/python/py/auxiliary.py`: the Monte-Carlo
expected-value simulator (`simulate_emax`), the per-draw total-value
computation (`get_total_value`), the future-payoff lookup
(`_get_future_payoffs`) and the myopic stabilization (`_stabilize_myopic`).
Machine floats are modelled by exact rationals; numpy arrays of four
alternatives by functions `Fin 4 → ℚ`; the integer-indexed lookup tables
(`states_all`, `mapping_state_idx`, `periods_emax`) by total functions on ℤ.

The second part embeds `src/respy/interpolate.py`: the even split of the
interpolation-point budget across dense partitions
(`_split_interpolation_points_evenly`), the seeded anchor-state indicator
(`_get_not_interpolated_indicator`), the left-hand-side variable
(`_compute_lhs_variable`) and the linear-model prediction
(`_predict_with_linear_model`).  Python's global numpy random generator is
made explicit: an abstract generator (a `next` function on states together
with a seeding function) is threaded through the definitions, and
`np.random.seed` becomes a reset of that state.  A fallible Python call is
modelled in `Except String`; in particular the reference to the loop
variable `dense_key` after a loop that never ran is modelled as the
`NameError` that CPython raises there.
-/

namespace Robupy

/-- Modelled from the spec: `HUGE_FLOAT` is imported from `robupy.constants`,
which is not under `src/`; the spec only calls its negation "a very large
negative sentinel".  We fix the customary value `10 ^ 20`.  No theorem below
depends on the exact value, only on it being large and positive. -/
def HUGE_FLOAT : ℚ := 10 ^ 20

/-- The ex-post payoff loop of `get_total_value` (auxiliary.py lines 147-151):
alternatives 0 and 1 carry multiplicative shocks, alternatives 2 and 3 carry
additive shocks. -/
def payoffsExPost (payoffs_systematic disturbances : Fin 4 → ℚ) : Fin 4 → ℚ :=
  fun j =>
    if (j : ℕ) < 2 then payoffs_systematic j * disturbances j
    else payoffs_systematic j + disturbances j

/-- `_get_future_payoffs` (auxiliary.py lines 175-207).  The state tuple of
state `k` in `period` is read from `states_all`; each alternative's future
payoff is the next period's EMAX at the correspondingly incremented state,
except that the schooling alternative (index 2) receives the sentinel
`-HUGE_FLOAT` once `edu` has reached `edu_max - edu_start`. -/
def getFuturePayoffs (edu_max edu_start : ℤ)
    (mapping_state_idx : ℤ → ℤ → ℤ → ℤ → ℤ → ℤ) (period : ℤ)
    (periods_emax : ℤ → ℤ → ℚ) (k : ℤ)
    (states_all : ℤ → ℤ → ℤ × ℤ × ℤ × ℤ) : Fin 4 → ℚ :=
  let s := states_all period k
  let exp_a := s.1
  let exp_b := s.2.1
  let edu := s.2.2.1
  fun j =>
    if j = 0 then
      periods_emax (period + 1) (mapping_state_idx (period + 1) (exp_a + 1) exp_b edu 0)
    else if j = 1 then
      periods_emax (period + 1) (mapping_state_idx (period + 1) exp_a (exp_b + 1) edu 0)
    else if j = 2 then
      if edu < edu_max - edu_start then
        periods_emax (period + 1) (mapping_state_idx (period + 1) exp_a exp_b (edu + 1) 1)
      else -HUGE_FLOAT
    else
      periods_emax (period + 1) (mapping_state_idx (period + 1) exp_a exp_b edu 0)

/-- `_stabilize_myopic` (auxiliary.py lines 210-224): when the schooling
future payoff holds the sentinel, the schooling total payoff is overwritten
with the sentinel. -/
def stabilizeMyopic (total_payoffs future_payoffs : Fin 4 → ℚ) : Fin 4 → ℚ :=
  if future_payoffs 2 = -HUGE_FLOAT then
    Function.update total_payoffs 2 (-HUGE_FLOAT)
  else total_payoffs

/-- `get_total_value` (auxiliary.py lines 135-168).  Returns the triple
(total payoffs, ex-post payoffs, future payoffs). -/
def getTotalValue (period num_periods : ℤ) (delta : ℚ)
    (payoffs_systematic disturbances : Fin 4 → ℚ) (edu_max edu_start : ℤ)
    (mapping_state_idx : ℤ → ℤ → ℤ → ℤ → ℤ → ℤ)
    (periods_emax : ℤ → ℤ → ℚ) (k : ℤ)
    (states_all : ℤ → ℤ → ℤ × ℤ × ℤ × ℤ) :
    (Fin 4 → ℚ) × (Fin 4 → ℚ) × (Fin 4 → ℚ) :=
  let payoffs_ex_post := payoffsExPost payoffs_systematic disturbances
  let future_payoffs :=
    if period ≠ num_periods - 1 then
      getFuturePayoffs edu_max edu_start mapping_state_idx period periods_emax k states_all
    else fun _ => 0
  let total_payoffs := fun j => payoffs_ex_post j + delta * future_payoffs j
  let total_payoffs' :=
    if delta = 0 then stabilizeMyopic total_payoffs future_payoffs else total_payoffs
  (total_payoffs', payoffs_ex_post, future_payoffs)

/-- Python's `max` over the four-element total-payoff array. -/
def max4 (f : Fin 4 → ℚ) : ℚ := max (max (f 0) (f 1)) (max (f 2) (f 3))

/-- `simulate_emax` (auxiliary.py lines 103-132), first returned component:
the accumulation loop over draws followed by the division by `num_draws`.
(The other two returned components are the last draw's diagnostics and play
no role in the solver's output.) -/
def simulateEmax (num_periods : ℤ) (num_draws : ℕ) (period : ℤ) (k : ℤ)
    (eps_relevant_emax : ℕ → Fin 4 → ℚ) (payoffs_systematic : Fin 4 → ℚ)
    (edu_max edu_start : ℤ) (periods_emax : ℤ → ℤ → ℚ)
    (states_all : ℤ → ℤ → ℤ × ℤ × ℤ × ℤ)
    (mapping_state_idx : ℤ → ℤ → ℤ → ℤ → ℤ → ℤ) (delta : ℚ) : ℚ :=
  ((List.range num_draws).foldl
    (fun acc i =>
      acc + max4 (getTotalValue period num_periods delta payoffs_systematic
        (eps_relevant_emax i) edu_max edu_start mapping_state_idx periods_emax
        k states_all).1)
    0) / (num_draws : ℚ)

/-- The per-alternative total value exactly as the specification sentence
behind the averaging property states it: the ex-post reward (multiplicative
shock for alternatives 0 and 1, additive shock for 2 and 3) plus `delta`
times the continuation value — the future payoff looked up by
`_get_future_payoffs`, or 0 in the final period — with no special myopic
treatment. -/
def claimTotalValue (period num_periods : ℤ) (delta : ℚ)
    (payoffs_systematic disturbances : Fin 4 → ℚ) (edu_max edu_start : ℤ)
    (mapping_state_idx : ℤ → ℤ → ℤ → ℤ → ℤ → ℤ) (periods_emax : ℤ → ℤ → ℚ)
    (k : ℤ) (states_all : ℤ → ℤ → ℤ × ℤ × ℤ × ℤ) : Fin 4 → ℚ :=
  let future :=
    if period ≠ num_periods - 1 then
      getFuturePayoffs edu_max edu_start mapping_state_idx period periods_emax k states_all
    else fun _ => 0
  fun j => payoffsExPost payoffs_systematic disturbances j + delta * future j

/-- The amended per-alternative total value: as `claimTotalValue`, except
that when `delta = 0` and the schooling future payoff holds the sentinel
`-HUGE_FLOAT`, the schooling total is the sentinel itself (the myopic
stabilization performed by `_stabilize_myopic`). -/
def amendedTotalValue (period num_periods : ℤ) (delta : ℚ)
    (payoffs_systematic disturbances : Fin 4 → ℚ) (edu_max edu_start : ℤ)
    (mapping_state_idx : ℤ → ℤ → ℤ → ℤ → ℤ → ℤ) (periods_emax : ℤ → ℤ → ℚ)
    (k : ℤ) (states_all : ℤ → ℤ → ℤ × ℤ × ℤ × ℤ) : Fin 4 → ℚ :=
  let future :=
    if period ≠ num_periods - 1 then
      getFuturePayoffs edu_max edu_start mapping_state_idx period periods_emax k states_all
    else fun _ => 0
  fun j =>
    if delta = 0 ∧ future 2 = -HUGE_FLOAT ∧ j = 2 then -HUGE_FLOAT
    else claimTotalValue period num_periods delta payoffs_systematic disturbances
      edu_max edu_start mapping_state_idx periods_emax k states_all j

end Robupy

namespace Respy

/-- Abstract stand-in for numpy's global pseudo-random generator: a state of
type ℕ, a `next` function producing a raw value and the successor state, and
the seeding function modelling `np.random.seed`.  Theorems quantify over the
generator, so nothing depends on the concrete pseudo-random stream. -/
structure RNG where
  seedInit : ℕ → ℕ
  next : ℕ → ℕ × ℕ

/-- `np.random.choice(pool, size=n, replace=False)` for a pool of indices:
each raw generator value selects a position in the remaining pool, which is
then removed.  Asking for more elements than the pool holds is the
`ValueError` numpy raises. -/
def sampleWithoutReplacement (rng : RNG) : ℕ → List ℕ → ℕ → Except String (List ℕ × ℕ)
  | 0, _, st => .ok ([], st)
  | n + 1, pool, st =>
    if pool.length = 0 then
      .error "ValueError: Cannot take a larger sample than population"
    else
      let v := rng.next st
      let j := v.1 % pool.length
      (sampleWithoutReplacement rng n (pool.eraseIdx j) v.2).map
        (fun r => (pool.getD j 0 :: r.1, r.2))

/-- `_get_not_interpolated_indicator` (interpolate.py lines 199-224).  The
incoming global generator state `st0` is discarded by `np.random.seed(seed)`;
then `interpolation_points` distinct indices below `n_states` are drawn and
the boolean indicator of length `n_states` marks exactly those positions. -/
def getNotInterpolatedIndicator (rng : RNG) (interpolation_points n_states seed : ℕ)
    (st0 : ℕ) : Except String (List Bool × ℕ) :=
  let st := rng.seedInit seed
  (sampleWithoutReplacement rng interpolation_points (List.range n_states) st).map
    (fun r => ((List.range n_states).map (fun i => decide (i ∈ r.1)), r.2))

/-- Loop state of the distribution loop of
`_split_interpolation_points_evenly`: the allocation and remaining weight per
key position, the position of the key last assigned to the loop variable
`dense_key`, and the generator state. -/
structure SplitState where
  alloc : ℕ → ℕ
  weight : ℕ → ℕ
  lastKey : Option ℕ
  rngSt : ℕ

/-- One iteration of the distribution loop (interpolate.py lines 174-182):
`np.random.choice` with probabilities proportional to the remaining weights
returns a key of positive weight (any such key can be realized, so the drawn
position is read off the abstract generator); that key's allocation grows by
one and its weight shrinks by one.  When every weight is zero the probability
vector is `0/0` and numpy rejects it. -/
def splitStep (rng : RNG) (m : ℕ) (s : SplitState) : Except String SplitState :=
  let positive := (List.range m).filter (fun i => 0 < s.weight i)
  if positive.length = 0 then .error "ValueError: probabilities contain NaN"
  else
    let v := rng.next s.rngSt
    let i := positive.getD (v.1 % positive.length) 0
    .ok ⟨Function.update s.alloc i (s.alloc i + 1),
         Function.update s.weight i (s.weight i - 1),
         some i, v.2⟩

/-- The distribution loop run `t` times. -/
def splitLoop (rng : RNG) (m : ℕ) : ℕ → SplitState → Except String SplitState
  | 0, s => .ok s
  | t + 1, s => (splitStep rng m s).bind (splitLoop rng m t)

/-- `_split_interpolation_points_evenly` (interpolate.py lines 133-196).
`denseKeyToNStates` is the insertion-ordered key → state-count dictionary,
`budget` is `options["interpolation_points"]`, and the generator is seeded
with the next solution seed.  Returns the allocation dictionary together with
the flag of the sub-1% warning.  The final share dictionary is transcribed as
the source writes it: the comprehension iterates `dense_index` over the keys
but keys the dictionary by the stale loop variable `dense_key` — the key last
drawn in the distribution loop — so it collapses to the single entry
`alloc (last key in insertion order) / n_states (last drawn key)`; and when
the distribution loop never ran, `dense_key` was never assigned and CPython
raises `NameError` inside the comprehension (unless the dictionary is empty,
in which case the comprehension body never evaluates). -/
def splitInterpolationPointsEvenly (rng : RNG) (seed : ℕ)
    (denseKeyToNStates : List (ℕ × ℕ)) (budget : ℤ) :
    Except String (List (ℕ × ℕ) × Bool) :=
  let m := denseKeyToNStates.length
  let key := fun i => (denseKeyToNStates.getD i (0, 0)).1
  let nSt := fun i => (denseKeyToNStates.getD i (0, 0)).2
  let initAlloc := fun i => if 2 < nSt i then 2 else nSt i
  let initWeight := fun i => nSt i - 2
  let surplus : ℤ := budget - 2 * m
  if 0 < surplus then
    (splitLoop rng m surplus.toNat ⟨initAlloc, initWeight, none, rng.seedInit seed⟩).bind
      (fun s =>
        match s.lastKey with
        | none => .error "NameError: name 'dense_key' is not defined"
        | some p =>
          let share : ℚ := (s.alloc (m - 1) : ℚ) / (nSt p : ℚ)
          .ok ((List.range m).map (fun i => (key i, s.alloc i)),
               decide (share < 1 / 100)))
  else
    if m = 0 then .ok ([], false)
    else .error "NameError: name 'dense_key' is not defined"

/-- Boolean-mask indexing `xs[mask]` of numpy. -/
def maskFilter {α : Type} (mask : List Bool) (xs : List α) : List α :=
  ((mask.zip xs).filter (fun p => p.1)).map (fun p => p.2)

/-- Number of `true` entries of `mask` strictly before position `i`: the rank
of row `i` inside `xs[mask]`. -/
def maskRank (mask : List Bool) (i : ℕ) : ℕ := ((mask.take i).filter id).length

/-- Row-vector dot product `row.dot(beta)`. -/
def dotProd (xs ys : List ℚ) : ℚ := (List.zipWith (fun a b => a * b) xs ys).sum

/-- numpy's `.max()` over a nonempty row. -/
def listMax : List ℚ → ℚ
  | [] => 0
  | x :: xs => xs.foldl max x

/-- Modelled from the spec: `calculate_value_functions_and_flow_utilities`
(respy.shared) is not under `src/`.  Per §4.3 of the spec, a state's value
function for one alternative under a shock vector is the flow reward — the
wage scaled by the (multiplicative) shock plus the non-pecuniary reward —
plus `delta` times that alternative's continuation value. -/
def valueFunctions (delta : ℚ) (wages nonpecs contVals draws : List ℚ) : List ℚ :=
  (List.range wages.length).map (fun c =>
    wages.getD c 0 * draws.getD c 0 + nonpecs.getD c 0 + delta * contVals.getD c 0)

/-- Modelled from the spec: `calculate_expected_value_functions` (respy.shared)
is not under `src/`.  Per §4.3: for each state, the draw-averaged maximum over
alternatives of the per-draw value functions. -/
def calculateExpectedValueFunctions (wages nonpecs contVals : List (List ℚ))
    (draws : List (List ℚ)) (delta : ℚ) : List ℚ :=
  (List.range wages.length).map (fun s =>
    ((draws.map (fun d =>
        listMax (valueFunctions delta (wages.getD s []) (nonpecs.getD s [])
          (contVals.getD s []) d))).sum) / (draws.length : ℚ))

/-- `_compute_lhs_variable` (interpolate.py lines 288-333): the expected value
functions are simulated only for the masked (anchor) states, and the masked
per-state maxima of the expected-shock value functions are subtracted. -/
def computeLhsVariable (wages nonpecs contVals : List (List ℚ))
    (maxVF : List ℚ) (ni : List Bool) (draws : List (List ℚ)) (delta : ℚ) : List ℚ :=
  List.zipWith (fun a b => a - b)
    (calculateExpectedValueFunctions (maskFilter ni wages) (maskFilter ni nonpecs)
      (maskFilter ni contVals) draws delta)
    (maskFilter ni maxVF)

/-- `_predict_with_linear_model` (interpolate.py lines 336-374), with the OLS
routine `ols` (a numba kernel solving least squares through the
pseudo-inverse) abstracted into a function argument: every theorem below
holds for an arbitrary coefficient vector, so nothing depends on the
numerics of `ols`.  The gap predicted from the regression is clipped at 0
from below, the per-state maximum is added back, and the anchor rows are then
overwritten with the exact values `endogenous + maxVF[mask]`. -/
def predictWithLinearModel (olsFn : List ℚ → List (List ℚ) → List ℚ)
    (endogenous : List ℚ) (exogenous : List (List ℚ))
    (maxVF : List ℚ) (ni : List Bool) : List ℚ :=
  let beta := olsFn endogenous (maskFilter ni exogenous)
  let endogenousPredicted := exogenous.map (fun row => dotProd row beta)
  let clipped := endogenousPredicted.map (fun x => max x 0)
  let predictions := List.zipWith (fun a b => a + b) clipped maxVF
  (List.range predictions.length).map (fun i =>
    if ni.getD i false then endogenous.getD (maskRank ni i) 0 + maxVF.getD i 0
    else predictions.getD i 0)

/-- Number of `True` entries of a boolean indicator (numpy's
`indicator.sum()` for a boolean array). -/
def countTrue (bs : List Bool) : ℕ := (bs.filter (fun b => b)).length

end Respy

/-! ## Theorems -/

namespace Robupy

/-- C1: for every state and every draw, if the discount factor `delta` is 0
and the schooling alternative's future payoff holds the sentinel
`-HUGE_FLOAT`, then the total value computed for the schooling alternative
equals the sentinel exactly: `get_total_value` (through
`_stabilize_myopic`) substitutes the sentinel directly into the total-value
array instead of computing it through the discounted-future term, so no
undefined `0 × (−∞)` product can contaminate the maximum. -/
theorem c1_myopic_sentinel_total_value
    (period num_periods : ℤ) (payoffs_systematic disturbances : Fin 4 → ℚ)
    (edu_max edu_start : ℤ) (mapping_state_idx : ℤ → ℤ → ℤ → ℤ → ℤ → ℤ)
    (periods_emax : ℤ → ℤ → ℚ) (k : ℤ) (states_all : ℤ → ℤ → ℤ × ℤ × ℤ × ℤ)
    (delta : ℚ) (hdelta : delta = 0)
    (hsent : (getTotalValue period num_periods delta payoffs_systematic disturbances
        edu_max edu_start mapping_state_idx periods_emax k states_all).2.2 2
      = -HUGE_FLOAT) :
    (getTotalValue period num_periods delta payoffs_systematic disturbances
        edu_max edu_start mapping_state_idx periods_emax k states_all).1 2
      = -HUGE_FLOAT := by
  subst hdelta
  simp only [getTotalValue] at hsent ⊢
  rw [if_pos trivial]
  unfold stabilizeMyopic
  rw [if_pos hsent, Function.update_same]

/-- Witness for C1 at a concrete myopic input whose schooling future payoff
is the sentinel. -/
theorem c1_witness :
    (getTotalValue 0 2 0 (fun _ => 1) (fun _ => 0) 0 0
      (fun _ _ _ _ _ => 0) (fun _ _ => 0) 0 (fun _ _ => (0, 0, 0, 0))).1 2
      = -HUGE_FLOAT :=
  c1_myopic_sentinel_total_value 0 2 (fun _ => 1) (fun _ => 0) 0 0
    (fun _ _ _ _ _ => 0) (fun _ _ => 0) 0 (fun _ _ => (0, 0, 0, 0)) 0 rfl
    (by decide)

end Robupy

namespace Robupy

/-- C3: for every state evaluated in the final period
(`period = num_periods - 1`), the continuation values used by
`get_total_value` are exactly 0 for every alternative, so the total value
reduces to the ex-post payoffs alone. -/
theorem c3_terminal_period_zero_continuation
    (period num_periods : ℤ) (delta : ℚ)
    (payoffs_systematic disturbances : Fin 4 → ℚ)
    (edu_max edu_start : ℤ) (mapping_state_idx : ℤ → ℤ → ℤ → ℤ → ℤ → ℤ)
    (periods_emax : ℤ → ℤ → ℚ) (k : ℤ) (states_all : ℤ → ℤ → ℤ × ℤ × ℤ × ℤ)
    (hterm : period = num_periods - 1) :
    (getTotalValue period num_periods delta payoffs_systematic disturbances
        edu_max edu_start mapping_state_idx periods_emax k states_all).2.2
      = (fun _ => 0) ∧
    (getTotalValue period num_periods delta payoffs_systematic disturbances
        edu_max edu_start mapping_state_idx periods_emax k states_all).1
      = payoffsExPost payoffs_systematic disturbances := by
  subst hterm
  simp only [getTotalValue]
  rw [if_neg (fun h : num_periods - 1 ≠ num_periods - 1 => h rfl)]
  have hT : (fun j : Fin 4 =>
      payoffsExPost payoffs_systematic disturbances j + delta * (fun _ : Fin 4 => (0:ℚ)) j)
      = payoffsExPost payoffs_systematic disturbances := by
    funext j; simp
  rw [hT]
  have hS : stabilizeMyopic (payoffsExPost payoffs_systematic disturbances)
      (fun _ : Fin 4 => (0:ℚ)) = payoffsExPost payoffs_systematic disturbances := by
    unfold stabilizeMyopic
    exact if_neg (by decide)
  rw [hS, ite_self]
  exact ⟨rfl, rfl⟩

/-- Witness for C3 at a concrete final-period input. -/
theorem c3_witness :
    (getTotalValue 1 2 (9/10) (fun _ => 1) (fun _ => 2) 10 0
        (fun _ _ _ _ _ => 0) (fun _ _ => 5) 0 (fun _ _ => (0, 0, 0, 0))).2.2
      = (fun _ => 0) ∧
    (getTotalValue 1 2 (9/10) (fun _ => 1) (fun _ => 2) 10 0
        (fun _ _ _ _ _ => 0) (fun _ _ => 5) 0 (fun _ _ => (0, 0, 0, 0))).1
      = payoffsExPost (fun _ => 1) (fun _ => 2) :=
  c3_terminal_period_zero_continuation 1 2 (9/10) (fun _ => 1) (fun _ => 2) 10 0
    (fun _ _ _ _ _ => 0) (fun _ _ => 5) 0 (fun _ _ => (0, 0, 0, 0)) rfl

end Robupy

namespace Robupy

/-- Accumulating `g` over `List.range n` starting from `a` adds the range
sum: the loop of `simulate_emax` in closed form. -/
theorem foldl_range_add_eq (g : ℕ → ℚ) :
    ∀ (n : ℕ) (a : ℚ),
      (List.range n).foldl (fun acc i => acc + g i) a
        = a + ∑ i ∈ Finset.range n, g i := by
  intro n
  induction n with
  | zero => intro a; simp
  | succ n ih =>
    intro a
    rw [List.range_succ, List.foldl_append, ih, Finset.sum_range_succ]
    simp [add_assoc]

/-- The total-value array computed by `get_total_value` coincides with the
amended per-alternative formula. -/
theorem getTotalValue_eq_amendedTotalValue
    (period num_periods : ℤ) (delta : ℚ) (ps ds : Fin 4 → ℚ)
    (edu_max edu_start : ℤ) (msi : ℤ → ℤ → ℤ → ℤ → ℤ → ℤ)
    (pe : ℤ → ℤ → ℚ) (k : ℤ) (sa : ℤ → ℤ → ℤ × ℤ × ℤ × ℤ) :
    (getTotalValue period num_periods delta ps ds edu_max edu_start msi pe k sa).1
      = amendedTotalValue period num_periods delta ps ds edu_max edu_start msi pe k sa := by
  funext j
  simp only [getTotalValue, amendedTotalValue, claimTotalValue]
  set F : Fin 4 → ℚ := (if period ≠ num_periods - 1 then
      getFuturePayoffs edu_max edu_start msi period pe k sa
    else fun _ => (0:ℚ)) with hF
  by_cases hd : delta = 0
  · subst hd
    rw [if_pos rfl]
    unfold stabilizeMyopic
    by_cases hs : F 2 = -HUGE_FLOAT
    · rw [if_pos hs]
      by_cases hj : j = 2
      · subst hj
        rw [Function.update_same,
          if_pos (show (0:ℚ) = 0 ∧ F 2 = -HUGE_FLOAT ∧ (2 : Fin 4) = 2 from ⟨rfl, hs, rfl⟩)]
      · rw [Function.update_noteq hj,
          if_neg (show ¬((0:ℚ) = 0 ∧ F 2 = -HUGE_FLOAT ∧ j = 2) from fun h => hj h.2.2)]
    · rw [if_neg hs,
        if_neg (show ¬((0:ℚ) = 0 ∧ F 2 = -HUGE_FLOAT ∧ j = 2) from fun h => hs h.2.1)]
  · rw [if_neg hd,
      if_neg (show ¬(delta = 0 ∧ F 2 = -HUGE_FLOAT ∧ j = 2) from fun h => hd h.1)]

end Robupy

namespace Robupy

/-- C2 (amended): for every `num_draws ≥ 1`, `simulate_emax` returns the
average over the `num_draws` draw rows of the maximum over the four
alternatives of the per-draw total value — `systematic_reward * shock` for
alternatives 0 and 1, `systematic_reward + shock` for alternatives 2 and 3,
each plus `delta * continuation_value[alternative]` — except that for a
myopic agent (`delta = 0`) whose schooling future payoff holds the sentinel
`-HUGE_FLOAT`, the schooling total is the sentinel itself; the sum is
divided by exactly `num_draws` with no draw discarded. -/
theorem c2_simulate_emax_draw_average
    (num_periods : ℤ) (num_draws : ℕ) (period k : ℤ)
    (eps : ℕ → Fin 4 → ℚ) (ps : Fin 4 → ℚ) (edu_max edu_start : ℤ)
    (pe : ℤ → ℤ → ℚ) (sa : ℤ → ℤ → ℤ × ℤ × ℤ × ℤ)
    (msi : ℤ → ℤ → ℤ → ℤ → ℤ → ℤ) (delta : ℚ)
    (hnd : 1 ≤ num_draws) :
    simulateEmax num_periods num_draws period k eps ps edu_max edu_start pe sa msi delta
      = (∑ i ∈ Finset.range num_draws,
          max4 (amendedTotalValue period num_periods delta ps (eps i)
            edu_max edu_start msi pe k sa)) / (num_draws : ℚ) := by
  unfold simulateEmax
  rw [foldl_range_add_eq
    (fun i => max4 (getTotalValue period num_periods delta ps (eps i)
      edu_max edu_start msi pe k sa).1) num_draws 0]
  rw [zero_add]
  congr 1
  exact Finset.sum_congr rfl (fun i _ => by
    rw [getTotalValue_eq_amendedTotalValue])

/-- Witness for C2 (amended) with one draw at a concrete input. -/
theorem c2_witness :
    simulateEmax 3 1 0 0 (fun _ _ => 2) (fun _ => 1) 10 0
        (fun _ _ => 4) (fun _ _ => (0, 0, 0, 0)) (fun _ _ _ _ _ => 0) (1/2)
      = (∑ i ∈ Finset.range 1,
          max4 (amendedTotalValue 0 3 (1/2) (fun _ => 1) ((fun _ (_ : Fin 4) => (2:ℚ)) i)
            10 0 (fun _ _ _ _ _ => 0) (fun _ _ => 4) 0 (fun _ _ => (0, 0, 0, 0))))
        / (1 : ℚ) :=
  c2_simulate_emax_draw_average 3 1 0 0 (fun _ _ => 2) (fun _ => 1) 10 0
    (fun _ _ => 4) (fun _ _ => (0, 0, 0, 0)) (fun _ _ _ _ _ => 0) (1/2)
    (by decide)

/-- Counterexample to C2 as literally stated: for a myopic agent
(`delta = 0`) at a state whose schooling level has reached the cap, the
schooling future payoff is the sentinel; `simulate_emax` stabilizes the
schooling total to the sentinel and returns 1, while the claimed
per-alternative formula (ex-post payoff plus `delta` times the continuation
value for every alternative) averages to 5. -/
theorem c2_counterexample :
    simulateEmax 2 1 0 0 (fun _ _ => 0) (fun j => if j = 2 then (5:ℚ) else 1) 10 10
        (fun _ _ => 0) (fun _ _ => (0, 0, 0, 0)) (fun _ _ _ _ _ => 0) 0
      ≠ (∑ i ∈ Finset.range 1,
          max4 (claimTotalValue 0 2 0 (fun j => if j = 2 then (5:ℚ) else 1)
            ((fun _ (_ : Fin 4) => (0:ℚ)) i)
            10 10 (fun _ _ _ _ _ => 0) (fun _ _ => 0) 0 (fun _ _ => (0, 0, 0, 0))))
        / (1 : ℚ) := by
  have hstab : (getTotalValue 0 2 0 (fun j => if j = 2 then (5:ℚ) else 1) (fun _ => 0)
      10 10 (fun _ _ _ _ _ => 0) (fun _ _ => 0) 0 (fun _ _ => (0, 0, 0, 0))).1
      = Function.update (payoffsExPost (fun j => if j = 2 then (5:ℚ) else 1) (fun _ => 0))
          2 (-HUGE_FLOAT) := by
    simp only [getTotalValue]
    rw [if_pos (by decide : (0:ℤ) ≠ 2 - 1)]
    rw [if_pos trivial]
    unfold stabilizeMyopic
    rw [if_pos (by simp [getFuturePayoffs] : getFuturePayoffs 10 10 (fun _ _ _ _ _ => 0) 0
      (fun _ _ => 0) 0 (fun _ _ => (0, 0, 0, 0)) 2 = -HUGE_FLOAT)]
    funext j
    simp
  have hmaxL : max4 (getTotalValue 0 2 0 (fun j => if j = 2 then (5:ℚ) else 1) (fun _ => 0)
      10 10 (fun _ _ _ _ _ => 0) (fun _ _ => 0) 0 (fun _ _ => (0, 0, 0, 0))).1 = 1 := by
    rw [hstab]
    simp [max4, Function.update, payoffsExPost, HUGE_FLOAT,
      (show ((0:Fin 4):ℕ) = 0 from rfl), (show ((1:Fin 4):ℕ) = 1 from rfl),
      (show ((2:Fin 4):ℕ) = 2 from rfl), (show ((3:Fin 4):ℕ) = 3 from rfl)]
    norm_num [max_def]
  have hL : simulateEmax 2 1 0 0 (fun _ _ => 0) (fun j => if j = 2 then (5:ℚ) else 1)
      10 10 (fun _ _ => 0) (fun _ _ => (0, 0, 0, 0)) (fun _ _ _ _ _ => 0) 0 = 1 := by
    unfold simulateEmax
    have hr : List.range 1 = [0] := rfl
    rw [hr]
    simp only [List.foldl_cons, List.foldl_nil]
    rw [zero_add, hmaxL]
    norm_num
  have hcl : claimTotalValue 0 2 0 (fun j => if j = 2 then (5:ℚ) else 1)
      ((fun _ (_ : Fin 4) => (0:ℚ)) 0)
      10 10 (fun _ _ _ _ _ => 0) (fun _ _ => 0) 0 (fun _ _ => (0, 0, 0, 0))
      = payoffsExPost (fun j => if j = 2 then (5:ℚ) else 1) (fun _ => 0) := by
    funext j
    simp [claimTotalValue]
  have hR : (∑ i ∈ Finset.range 1,
      max4 (claimTotalValue 0 2 0 (fun j => if j = 2 then (5:ℚ) else 1)
        ((fun _ (_ : Fin 4) => (0:ℚ)) i)
        10 10 (fun _ _ _ _ _ => 0) (fun _ _ => 0) 0 (fun _ _ => (0, 0, 0, 0))))
      / (1 : ℚ) = 5 := by
    rw [Finset.sum_range_one, hcl]
    simp [max4, payoffsExPost,
      (show ((0:Fin 4):ℕ) = 0 from rfl), (show ((1:Fin 4):ℕ) = 1 from rfl),
      (show ((2:Fin 4):ℕ) = 2 from rfl), (show ((3:Fin 4):ℕ) = 3 from rfl)]
  rw [hL, hR]
  norm_num

end Robupy

namespace Robupy

/-- C4: for every non-terminal state whose schooling level has reached
`edu_max - edu_start`, `_get_future_payoffs` assigns the schooling
alternative the sentinel `-HUGE_FLOAT` (the alternative stays in the array),
and — provided the ex-post payoffs and the feasible future payoffs are
bounded by `B`, with `delta` non-negative and the bound small against the
sentinel — the maximum over the four total values is attained outside the
schooling alternative, which stays strictly below the maximum; for states
with `edu < edu_max - edu_start` the schooling future payoff is read from
the next period's EMAX table at the schooling-incremented state. -/
theorem c4_schooling_cap_sentinel
    (period num_periods : ℤ) (delta : ℚ) (ps ds : Fin 4 → ℚ)
    (edu_max edu_start : ℤ) (msi : ℤ → ℤ → ℤ → ℤ → ℤ → ℤ)
    (pe : ℤ → ℤ → ℚ) (k : ℤ) (sa : ℤ → ℤ → ℤ × ℤ × ℤ × ℤ) (B : ℚ)
    (hp : period ≠ num_periods - 1)
    (hex : ∀ j : Fin 4, |payoffsExPost ps ds j| ≤ B)
    (hfutb : ∀ j : Fin 4, j ≠ 2 →
      |getFuturePayoffs edu_max edu_start msi period pe k sa j| ≤ B)
    (hdpos : 0 ≤ delta)
    (hkey : (delta = 0 ∧ B < HUGE_FLOAT) ∨ 2 * B + delta * B < delta * HUGE_FLOAT) :
    (edu_max - edu_start ≤ (sa period k).2.2.1 →
      getFuturePayoffs edu_max edu_start msi period pe k sa 2 = -HUGE_FLOAT ∧
      (getTotalValue period num_periods delta ps ds edu_max edu_start msi pe k sa).1 2
        < (getTotalValue period num_periods delta ps ds edu_max edu_start msi pe k sa).1 3 ∧
      max4 (getTotalValue period num_periods delta ps ds edu_max edu_start msi pe k sa).1
        = max (max ((getTotalValue period num_periods delta ps ds edu_max edu_start msi pe k sa).1 0)
              ((getTotalValue period num_periods delta ps ds edu_max edu_start msi pe k sa).1 1))
            ((getTotalValue period num_periods delta ps ds edu_max edu_start msi pe k sa).1 3) ∧
      (getTotalValue period num_periods delta ps ds edu_max edu_start msi pe k sa).1 2
        < max4 (getTotalValue period num_periods delta ps ds edu_max edu_start msi pe k sa).1) ∧
    ((sa period k).2.2.1 < edu_max - edu_start →
      getFuturePayoffs edu_max edu_start msi period pe k sa 2
        = pe (period + 1) (msi (period + 1) (sa period k).1 (sa period k).2.1
            ((sa period k).2.2.1 + 1) 1)) := by
  have hF2 : getFuturePayoffs edu_max edu_start msi period pe k sa 2
      = if (sa period k).2.2.1 < edu_max - edu_start
        then pe (period + 1) (msi (period + 1) (sa period k).1 (sa period k).2.1
          ((sa period k).2.2.1 + 1) 1)
        else -HUGE_FLOAT := by
    simp [getFuturePayoffs]
  have htv : (getTotalValue period num_periods delta ps ds edu_max edu_start msi pe k sa).1
      = (if delta = 0
         then stabilizeMyopic
           (fun j => payoffsExPost ps ds j
             + delta * getFuturePayoffs edu_max edu_start msi period pe k sa j)
           (getFuturePayoffs edu_max edu_start msi period pe k sa)
         else fun j => payoffsExPost ps ds j
           + delta * getFuturePayoffs edu_max edu_start msi period pe k sa j) := by
    simp only [getTotalValue]
    rw [if_pos hp]
  have hB0 : 0 ≤ B := le_trans (abs_nonneg _) (hex 0)
  constructor
  · intro hcap
    have hs : getFuturePayoffs edu_max edu_start msi period pe k sa 2 = -HUGE_FLOAT := by
      rw [hF2, if_neg (not_lt.mpr hcap)]
    have h23 : (getTotalValue period num_periods delta ps ds edu_max edu_start msi pe k sa).1 2
        < (getTotalValue period num_periods delta ps ds edu_max edu_start msi pe k sa).1 3 := by
      rw [htv]
      by_cases hd : delta = 0
      · rw [if_pos hd]
        unfold stabilizeMyopic
        rw [if_pos hs, Function.update_same,
          Function.update_noteq (by decide : (3:Fin 4) ≠ 2)]
        have hBH : B < HUGE_FLOAT := by
          rcases hkey with ⟨_, h⟩ | h
          · exact h
          · rw [hd] at h
            have := hB0
            nlinarith
        have h3 := (abs_le.mp (hex 3)).1
        have hf3 := (abs_le.mp (hfutb 3 (by decide))).1
        have hmul : delta * (-B) ≤ delta
            * getFuturePayoffs edu_max edu_start msi period pe k sa 3 :=
          mul_le_mul_of_nonneg_left hf3 hdpos
        rw [hd] at hmul ⊢
        linarith
      · rw [if_neg hd]
        have hkey' : 2 * B + delta * B < delta * HUGE_FLOAT := by
          rcases hkey with ⟨h0, _⟩ | h
          · exact absurd h0 hd
          · exact h
        have h2 := (abs_le.mp (hex 2)).2
        have h3 := (abs_le.mp (hex 3)).1
        have hf3 := (abs_le.mp (hfutb 3 (by decide))).1
        have hmul : delta * (-B) ≤ delta
            * getFuturePayoffs edu_max edu_start msi period pe k sa 3 :=
          mul_le_mul_of_nonneg_left hf3 hdpos
        rw [hs]
        have hneg : delta * (-HUGE_FLOAT) = -(delta * HUGE_FLOAT) := by ring
        rw [hneg]
        have hmul' : delta * (-B) = -(delta * B) := by ring
        rw [hmul'] at hmul
        linarith
    have hmax : max4 (getTotalValue period num_periods delta ps ds
          edu_max edu_start msi pe k sa).1
        = max (max ((getTotalValue period num_periods delta ps ds
              edu_max edu_start msi pe k sa).1 0)
            ((getTotalValue period num_periods delta ps ds
              edu_max edu_start msi pe k sa).1 1))
          ((getTotalValue period num_periods delta ps ds
            edu_max edu_start msi pe k sa).1 3) := by
      unfold max4
      rw [max_eq_right (le_of_lt h23)]
    refine ⟨hs, h23, hmax, lt_of_lt_of_le h23 ?_⟩
    rw [hmax]
    exact le_max_right _ _
  · intro hlt
    rw [hF2, if_pos hlt]

end Robupy

namespace Robupy

/-- Witness for C4: a concrete non-terminal state at the schooling cap with
bounded payoffs. -/
theorem c4_witness :
    ((3:ℤ) - 0 ≤ 5 →
      getFuturePayoffs 3 0 (fun _ _ _ _ _ => 0) 0 (fun _ _ => 0) 0
          (fun _ _ => (0, 0, 5, 0)) 2 = -HUGE_FLOAT ∧
      (getTotalValue 0 2 1 (fun _ => 1) (fun _ => 0) 3 0 (fun _ _ _ _ _ => 0)
          (fun _ _ => 0) 0 (fun _ _ => (0, 0, 5, 0))).1 2
        < (getTotalValue 0 2 1 (fun _ => 1) (fun _ => 0) 3 0 (fun _ _ _ _ _ => 0)
          (fun _ _ => 0) 0 (fun _ _ => (0, 0, 5, 0))).1 3 ∧
      max4 (getTotalValue 0 2 1 (fun _ => 1) (fun _ => 0) 3 0 (fun _ _ _ _ _ => 0)
          (fun _ _ => 0) 0 (fun _ _ => (0, 0, 5, 0))).1
        = max (max ((getTotalValue 0 2 1 (fun _ => 1) (fun _ => 0) 3 0 (fun _ _ _ _ _ => 0)
              (fun _ _ => 0) 0 (fun _ _ => (0, 0, 5, 0))).1 0)
            ((getTotalValue 0 2 1 (fun _ => 1) (fun _ => 0) 3 0 (fun _ _ _ _ _ => 0)
              (fun _ _ => 0) 0 (fun _ _ => (0, 0, 5, 0))).1 1))
          ((getTotalValue 0 2 1 (fun _ => 1) (fun _ => 0) 3 0 (fun _ _ _ _ _ => 0)
              (fun _ _ => 0) 0 (fun _ _ => (0, 0, 5, 0))).1 3) ∧
      (getTotalValue 0 2 1 (fun _ => 1) (fun _ => 0) 3 0 (fun _ _ _ _ _ => 0)
          (fun _ _ => 0) 0 (fun _ _ => (0, 0, 5, 0))).1 2
        < max4 (getTotalValue 0 2 1 (fun _ => 1) (fun _ => 0) 3 0 (fun _ _ _ _ _ => 0)
          (fun _ _ => 0) 0 (fun _ _ => (0, 0, 5, 0))).1) ∧
    ((5:ℤ) < 3 - 0 →
      getFuturePayoffs 3 0 (fun _ _ _ _ _ => 0) 0 (fun _ _ => 0) 0
          (fun _ _ => (0, 0, 5, 0)) 2 = 0) :=
  c4_schooling_cap_sentinel 0 2 1 (fun _ => 1) (fun _ => 0) 3 0
    (fun _ _ _ _ _ => 0) (fun _ _ => 0) 0 (fun _ _ => (0, 0, 5, 0)) 1
    (by decide)
    (by intro j; fin_cases j <;> simp [payoffsExPost])
    (by intro j hj; fin_cases j <;> simp_all [getFuturePayoffs])
    (by norm_num)
    (Or.inr (by norm_num [HUGE_FLOAT]))

end Robupy

namespace Respy

/-- C9: two calls of `_get_not_interpolated_indicator` with the same
`interpolation_points`, `n_states` and `seed` return element-for-element
identical boolean arrays, whatever global generator state each call starts
from: `np.random.seed(seed)` resets the generator first, so the anchor-state
set is reproducible from the seed alone. -/
theorem c9_indicator_reproducible_from_seed
    (rng : RNG) (interpolation_points n_states seed : ℕ) (st1 st2 : ℕ)
    (ind1 ind2 : List Bool) (st1' st2' : ℕ)
    (h1 : getNotInterpolatedIndicator rng interpolation_points n_states seed st1
      = .ok (ind1, st1'))
    (h2 : getNotInterpolatedIndicator rng interpolation_points n_states seed st2
      = .ok (ind2, st2')) :
    ∀ i : ℕ, ind1.getD i false = ind2.getD i false := by
  have hsame : getNotInterpolatedIndicator rng interpolation_points n_states seed st1
      = getNotInterpolatedIndicator rng interpolation_points n_states seed st2 := rfl
  have h : (Except.ok (ind1, st1') : Except String (List Bool × ℕ)) = .ok (ind2, st2') :=
    h1.symm.trans (hsame.trans h2)
  simp only [Except.ok.injEq, Prod.mk.injEq] at h
  intro i
  rw [h.1]

/-- Witness for C9 at a concrete generator, seed and two distinct incoming
states. -/
theorem c9_witness :
    ([true, false] : List Bool).getD 0 false
      = ([true, false] : List Bool).getD 0 false :=
  c9_indicator_reproducible_from_seed ⟨fun s => s, fun st => (st, st + 1)⟩
    1 2 0 5 99 [true, false] [true, false] 1 1 rfl rfl 0

/-- `getD` of a list built by mapping over `List.range`. -/
theorem getD_map_range {α : Type} (g : ℕ → α) (d : α) (n i : ℕ) (hi : i < n) :
    ((List.range n).map g).getD i d = g i := by
  rw [List.getD_eq_getElem _ _ (by simpa using hi)]
  simp

/-- `getD` of a `zipWith` at an in-bounds index. -/
theorem getD_zipWith (f : ℚ → ℚ → ℚ) (a b : List ℚ) (i : ℕ)
    (ha : i < a.length) (hb : i < b.length) :
    (List.zipWith f a b).getD i 0 = f (a.getD i 0) (b.getD i 0) := by
  rw [List.getD_eq_getElem _ _ (by simp [List.length_zipWith]; omega),
    List.getElem_zipWith, List.getD_eq_getElem _ _ ha, List.getD_eq_getElem _ _ hb]

/-- C7: for every interpolated (non-anchor) state, the prediction returned
by `_predict_with_linear_model` is at least that state's maximum
expected-shock value function: the predicted gap is clipped at 0 from below
before `max_value_functions` is added back.  This holds for every
coefficient vector the OLS routine may produce. -/
theorem c7_interpolated_prediction_ge_max
    (olsFn : List ℚ → List (List ℚ) → List ℚ)
    (endogenous : List ℚ) (exogenous : List (List ℚ)) (maxVF : List ℚ)
    (ni : List Bool) (i : ℕ)
    (hi : i < ni.length)
    (he : exogenous.length = ni.length) (hm : maxVF.length = ni.length)
    (hni : ni.getD i false = false) :
    maxVF.getD i 0
      ≤ (predictWithLinearModel olsFn endogenous exogenous maxVF ni).getD i 0 := by
  unfold predictWithLinearModel
  have hclip : ((exogenous.map (fun row =>
      dotProd row (olsFn endogenous (maskFilter ni exogenous)))).map
        (fun x => max x 0)).length = ni.length := by
    simp [he]
  have hplen : (List.zipWith (fun a b => a + b)
      ((exogenous.map (fun row =>
        dotProd row (olsFn endogenous (maskFilter ni exogenous)))).map
          (fun x => max x 0)) maxVF).length = ni.length := by
    simp [List.length_zipWith, hclip, hm, he]
  rw [getD_map_range _ _ _ _ (by rw [hplen]; exact hi)]
  rw [hni]
  simp only [Bool.false_eq_true, if_false]
  rw [getD_zipWith _ _ _ _ (by rw [hclip]; exact hi) (by rw [hm]; exact hi)]
  have h0 : (0:ℚ) ≤ ((exogenous.map (fun row =>
      dotProd row (olsFn endogenous (maskFilter ni exogenous)))).map
        (fun x => max x 0)).getD i 0 := by
    rw [List.getD_eq_getElem _ _ (by rw [hclip]; exact hi)]
    rw [List.getElem_map]
    exact le_max_right _ _
  linarith

/-- Witness for C7 at a concrete non-anchor state. -/
theorem c7_witness :
    ([(3:ℚ), 7] : List ℚ).getD 1 0
      ≤ (predictWithLinearModel (fun _ _ => [1]) [2] [[1], [1]] [3, 7]
          [true, false]).getD 1 0 :=
  c7_interpolated_prediction_ge_max (fun _ _ => [1]) [2] [[1], [1]] [3, 7]
    [true, false] 1 (by decide) (by decide) (by decide) (by decide)

end Respy

namespace Respy

/-- C10: with at least one dense partition in the period, whenever the
configured budget `options["interpolation_points"]` is at most twice the
number of partitions, the distribution loop of
`_split_interpolation_points_evenly` never runs, the loop variable
`dense_key` is never assigned, and the call fails with the unbound-variable
`NameError` instead of returning the minimal two-anchors-per-partition
allocation; the function returns normally only when the budget strictly
exceeds twice the number of partitions. -/
theorem c10_no_surplus_name_error
    (rng : RNG) (seed : ℕ) (keys : List (ℕ × ℕ)) (budget : ℤ)
    (hne : keys ≠ []) :
    (budget ≤ 2 * (keys.length : ℤ) →
      splitInterpolationPointsEvenly rng seed keys budget
        = .error "NameError: name 'dense_key' is not defined") ∧
    (∀ res, splitInterpolationPointsEvenly rng seed keys budget = .ok res →
      2 * (keys.length : ℤ) < budget) := by
  have herr : budget ≤ 2 * (keys.length : ℤ) →
      splitInterpolationPointsEvenly rng seed keys budget
        = .error "NameError: name 'dense_key' is not defined" := by
    intro hb
    unfold splitInterpolationPointsEvenly
    rw [if_neg (by omega : ¬((0:ℤ) < budget - 2 * (keys.length : ℤ)))]
    rw [if_neg (fun h => hne (List.length_eq_zero.mp h))]
  refine ⟨herr, ?_⟩
  intro res hres
  by_cases hb : budget ≤ 2 * (keys.length : ℤ)
  · rw [herr hb] at hres
    exact absurd hres (by simp)
  · omega

/-- Witness for C10: one partition, budget 2. -/
theorem c10_witness :
    splitInterpolationPointsEvenly ⟨fun s => s, fun st => (st, st)⟩ 0 [(7, 5)] 2
      = .error "NameError: name 'dense_key' is not defined" :=
  (c10_no_surplus_name_error ⟨fun s => s, fun st => (st, st)⟩ 0 [(7, 5)] 2
    (by decide)).1 (by decide)

end Respy

namespace Respy

/-- C8 (code bug, evaluated at the failing input): with two partitions of
1000 and 10 states and budget 5, one surplus point goes to partition 1, so
partition 0 keeps exactly its 2 minimum anchors — a share of 2/1000 < 1%,
which per the docstring and the spec must trigger the warning.  The code's
final comprehension, however, keys the share dictionary by the stale loop
variable `dense_key` (the last drawn key, partition 1) and so checks only
`alloc(last inserted key) / n_states(last drawn key) = 3/10`; no warning is
emitted (the returned flag is `false`) although partition 0's share is below
1%. -/
theorem c8_share_check_collapsed :
    splitInterpolationPointsEvenly ⟨fun _ => 0, fun st => (1, st)⟩ 0
        [(0, 1000), (1, 10)] 5
      = .ok ([(0, 2), (1, 3)], false) ∧ ((2:ℚ) / 1000 < 1 / 100) := by
  constructor
  · have h1 : splitInterpolationPointsEvenly ⟨fun _ => 0, fun st => (1, st)⟩ 0
        [(0, 1000), (1, 10)] 5
        = .ok ([(0, 2), (1, 3)], decide (((3:ℕ):ℚ) / ((10:ℕ):ℚ) < 1 / 100)) := rfl
    have h2 : decide (((3:ℕ):ℚ) / ((10:ℕ):ℚ) < 1 / 100) = false :=
      decide_eq_false (by push_cast; norm_num)
    rw [h1, h2]
  · norm_num

end Respy

namespace Respy

/-- `maskFilter` over a cons cell. -/
theorem maskFilter_cons {α : Type} (b : Bool) (ms : List Bool) (x : α) (xs : List α) :
    maskFilter (b :: ms) (x :: xs)
      = if b then x :: maskFilter ms xs else maskFilter ms xs := by
  cases b <;> simp [maskFilter]

/-- `countTrue` over a cons cell. -/
theorem countTrue_cons (b : Bool) (ms : List Bool) :
    countTrue (b :: ms) = (if b then 1 else 0) + countTrue ms := by
  cases b
  · simp [countTrue, List.filter_cons]
  · simp [countTrue, List.filter_cons, Nat.add_comm]

/-- Length of a boolean-mask selection when lengths agree. -/
theorem maskFilter_length {α : Type} (mask : List Bool) :
    ∀ xs : List α, xs.length = mask.length →
      (maskFilter mask xs).length = countTrue mask := by
  induction mask with
  | nil =>
    intro xs h
    rw [List.length_nil] at h
    rw [List.length_eq_zero.mp h]
    rfl
  | cons b ms ih =>
    intro xs h
    cases xs with
    | nil => simp at h
    | cons x xs' =>
      have h' : xs'.length = ms.length := by simpa using h
      rw [maskFilter_cons, countTrue_cons]
      cases b
      · simpa using ih xs' h'
      · simp [ih xs' h', Nat.add_comm]

/-- The rank of position 0. -/
theorem maskRank_zero (mask : List Bool) : maskRank mask 0 = 0 := by
  simp [maskRank]

/-- The rank below a successor position. -/
theorem maskRank_cons_succ (b : Bool) (ms : List Bool) (i : ℕ) :
    maskRank (b :: ms) (i + 1) = (if b then 1 else 0) + maskRank ms i := by
  cases b
  · simp [maskRank]
  · simp [maskRank, List.filter_cons, Nat.add_comm]

/-- A masked row keeps its value: the `maskRank`-th element of `xs[mask]` is
`xs[i]` when position `i` is marked. -/
theorem maskFilter_getD_maskRank {α : Type} (d : α) (mask : List Bool) :
    ∀ (xs : List α) (i : ℕ),
      xs.length = mask.length → i < mask.length → mask.getD i false = true →
      (maskFilter mask xs).getD (maskRank mask i) d = xs.getD i d := by
  induction mask with
  | nil => intro xs i _ hi _; simp at hi
  | cons b ms ih =>
    intro xs i hlen hi ht
    cases xs with
    | nil => simp at hlen
    | cons x xs' =>
      have hlen' : xs'.length = ms.length := by simpa using hlen
      cases i with
      | zero =>
        have hb : b = true := by simpa using ht
        subst hb
        rw [maskFilter_cons, if_pos rfl, maskRank_zero]
        rfl
      | succ i' =>
        have ht' : ms.getD i' false = true := by simpa using ht
        have hi' : i' < ms.length := by simpa using hi
        rw [maskFilter_cons, maskRank_cons_succ]
        cases b
        · simpa using ih xs' i' hlen' hi' ht'
        · rw [show ((if true then 1 else 0) + maskRank ms i' : ℕ)
              = maskRank ms i' + 1 by simp [Nat.add_comm]]
          simpa using ih xs' i' hlen' hi' ht'

/-- The rank of a marked position is below the number of marked positions. -/
theorem maskRank_lt_countTrue (mask : List Bool) :
    ∀ i : ℕ, i < mask.length → mask.getD i false = true →
      maskRank mask i < countTrue mask := by
  induction mask with
  | nil => intro i hi _; simp at hi
  | cons b ms ih =>
    intro i hi ht
    cases i with
    | zero =>
      have hb : b = true := by simpa using ht
      subst hb
      rw [maskRank_zero, countTrue_cons]
      simp
    | succ i' =>
      have ht' : ms.getD i' false = true := by simpa using ht
      have hi' : i' < ms.length := by simpa using hi
      have hr := ih i' hi' ht'
      rw [maskRank_cons_succ, countTrue_cons]
      cases b
      · simpa using hr
      · simp
        omega

/-- `calculate_expected_value_functions` returns one value per state. -/
theorem calculateExpectedValueFunctions_length
    (w n c : List (List ℚ)) (d : List (List ℚ)) (δ : ℚ) :
    (calculateExpectedValueFunctions w n c d δ).length = w.length := by
  simp [calculateExpectedValueFunctions]

end Respy

namespace Respy

/-- C6: for every anchor state (`not_interpolated` True), the value returned
by `_predict_with_linear_model` — fed the endogenous variable built by
`_compute_lhs_variable` — equals the exactly simulated expected value
function of that state (the Monte-Carlo expected value of the masked state,
i.e. the endogenous variable plus the state's maximum expected-shock value
function), never the regression prediction; this holds for every coefficient
vector the OLS routine may produce. -/
theorem c6_anchor_states_exact
    (olsFn : List ℚ → List (List ℚ) → List ℚ)
    (wages nonpecs contVals : List (List ℚ)) (maxVF : List ℚ)
    (ni : List Bool) (draws : List (List ℚ)) (delta : ℚ)
    (exogenous : List (List ℚ)) (i : ℕ)
    (hi : i < ni.length)
    (hw : wages.length = ni.length) (hn : nonpecs.length = ni.length)
    (hc : contVals.length = ni.length) (hm : maxVF.length = ni.length)
    (he : exogenous.length = ni.length)
    (hni : ni.getD i false = true) :
    (predictWithLinearModel olsFn
        (computeLhsVariable wages nonpecs contVals maxVF ni draws delta)
        exogenous maxVF ni).getD i 0
      = (calculateExpectedValueFunctions (maskFilter ni wages)
          (maskFilter ni nonpecs) (maskFilter ni contVals) draws delta).getD
            (maskRank ni i) 0 := by
  have hrank := maskRank_lt_countTrue ni i hi hni
  have hevf : (calculateExpectedValueFunctions (maskFilter ni wages)
      (maskFilter ni nonpecs) (maskFilter ni contVals) draws delta).length
      = countTrue ni := by
    rw [calculateExpectedValueFunctions_length, maskFilter_length ni wages hw]
  have hmf : (maskFilter ni maxVF).length = countTrue ni :=
    maskFilter_length ni maxVF hm
  unfold predictWithLinearModel
  have hplen : (List.zipWith (fun a b => a + b)
      ((exogenous.map (fun row =>
        dotProd row (olsFn (computeLhsVariable wages nonpecs contVals maxVF ni draws delta)
          (maskFilter ni exogenous)))).map
          (fun x => max x 0)) maxVF).length = ni.length := by
    simp [List.length_zipWith, he, hm]
  rw [getD_map_range _ _ _ _ (by rw [hplen]; exact hi)]
  rw [hni]
  simp only [if_true]
  unfold computeLhsVariable
  rw [getD_zipWith _ _ _ _ (by rw [hevf]; exact hrank) (by rw [hmf]; exact hrank)]
  rw [maskFilter_getD_maskRank 0 ni maxVF i hm hi hni]
  ring

/-- Witness for C6 at a concrete one-state anchor configuration. -/
theorem c6_witness :
    (predictWithLinearModel (fun _ _ => [0])
        (computeLhsVariable [[2]] [[1]] [[0]] [4] [true] [[1]] 1)
        [[0]] [4] [true]).getD 0 0
      = (calculateExpectedValueFunctions (maskFilter [true] [[2]])
          (maskFilter [true] [[1]]) (maskFilter [true] [[0]]) [[1]] 1).getD
            (maskRank [true] 0) 0 :=
  c6_anchor_states_exact (fun _ _ => [0]) [[2]] [[1]] [[0]] [4] [true] [[1]] 1
    [[0]] 0 (by decide) (by decide) (by decide) (by decide) (by decide) (by decide)
    (by decide)

end Respy

namespace Respy

/-- `sampleWithoutReplacement` from a duplicate-free pool of sufficient size
succeeds and returns that many distinct elements of the pool. -/
theorem sampleWithoutReplacement_spec (rng : RNG) :
    ∀ (k : ℕ) (pool : List ℕ) (st : ℕ), pool.Nodup → k ≤ pool.length →
      ∃ l st', sampleWithoutReplacement rng k pool st = .ok (l, st') ∧
        l.length = k ∧ l.Nodup ∧ ∀ x ∈ l, x ∈ pool := by
  intro k
  induction k with
  | zero =>
    intro pool st _ _
    exact ⟨[], st, rfl, rfl, List.nodup_nil, by simp⟩
  | succ n ih =>
    intro pool st hnd hk
    have hpl : ¬ pool.length = 0 := by omega
    have hjlt : (rng.next st).1 % pool.length < pool.length :=
      Nat.mod_lt _ (Nat.pos_of_ne_zero hpl)
    have hnd' : (pool.eraseIdx ((rng.next st).1 % pool.length)).Nodup :=
      hnd.eraseIdx _
    have hlen' : n ≤ (pool.eraseIdx ((rng.next st).1 % pool.length)).length := by
      have := (List.eraseIdx_sublist pool ((rng.next st).1 % pool.length)).length_le
      have h2 : pool.length - 1 ≤ (pool.eraseIdx ((rng.next st).1 % pool.length)).length := by
        rw [List.length_eraseIdx]
        split <;> omega
      omega
    obtain ⟨l, st', hrec, hlen, hndl, hsub⟩ :=
      ih (pool.eraseIdx ((rng.next st).1 % pool.length)) (rng.next st).2 hnd' hlen'
    refine ⟨pool.getD ((rng.next st).1 % pool.length) 0 :: l, st', ?_,
      by simp [hlen], ?_, ?_⟩
    · simp only [sampleWithoutReplacement]
      rw [if_neg hpl, hrec]
      rfl
    · refine List.nodup_cons.mpr ⟨?_, hndl⟩
      intro hmem
      have hmem' := hsub _ hmem
      rw [List.getD_eq_getElem _ _ hjlt] at hmem'
      obtain ⟨i', hi', hne, heq⟩ := List.mem_eraseIdx_iff_getElem.mp hmem'
      exact hne ((hnd.getElem_inj_iff).mp heq)
    · intro x hx
      rcases List.mem_cons.mp hx with hx | hx
      · subst hx
        rw [List.getD_eq_getElem _ _ hjlt]
        exact List.getElem_mem _
      · exact (List.eraseIdx_sublist pool _).mem (hsub x hx)

/-- The boolean indicator built from a duplicate-free index list marks
exactly that many positions. -/
theorem indicator_countTrue (n : ℕ) (l : List ℕ) (hnd : l.Nodup)
    (hsub : ∀ x ∈ l, x < n) :
    countTrue ((List.range n).map (fun i => decide (i ∈ l))) = l.length := by
  unfold countTrue
  rw [List.filter_map, List.length_map]
  have hperm : List.Perm ((List.range n).filter ((fun b => b) ∘ (fun i => decide (i ∈ l)))) l := by
    apply (List.perm_ext_iff_of_nodup (List.Nodup.filter _ (List.nodup_range n)) hnd).mpr
    intro a
    simp only [List.mem_filter, List.mem_range, Function.comp]
    constructor
    · rintro ⟨_, h⟩
      exact of_decide_eq_true h
    · intro h
      exact ⟨hsub a h, decide_eq_true h⟩
  exact hperm.length_eq

/-- `_get_not_interpolated_indicator` succeeds whenever the requested number
of anchors does not exceed the number of states, and its indicator has
exactly that many `True` entries. -/
theorem getNotInterpolatedIndicator_spec (rng : RNG) (pts n seed st0 : ℕ)
    (hk : pts ≤ n) :
    ∃ ind st', getNotInterpolatedIndicator rng pts n seed st0 = .ok (ind, st') ∧
      ind.length = n ∧ countTrue ind = pts := by
  obtain ⟨l, st', hs, hlen, hnd, hsub⟩ :=
    sampleWithoutReplacement_spec rng pts (List.range n) (rng.seedInit seed)
      (List.nodup_range n) (by simpa using hk)
  refine ⟨(List.range n).map (fun i => decide (i ∈ l)), st', ?_, by simp, ?_⟩
  · simp only [getNotInterpolatedIndicator]
    rw [hs]
    rfl
  · rw [indicator_countTrue n l hnd (fun x hx => List.mem_range.mp (hsub x hx)), hlen]

/-- An `Except.bind` that returns `ok` factors through an `ok`. -/
theorem bind_ok_elim {α β : Type} {x : Except String α} {f : α → Except String β}
    {b : β} (h : x.bind f = .ok b) : ∃ a, x = .ok a ∧ f a = .ok b := by
  cases x with
  | error e => exact absurd h (by simp [Except.bind])
  | ok a => exact ⟨a, rfl, h⟩

/-- One distribution-loop step preserves the per-key accounting: allocation
plus remaining weight is constant, and the allocation never drops below its
initial value. -/
theorem splitStep_inv (rng : RNG) (m : ℕ) (nf ia : ℕ → ℕ) (s s' : SplitState)
    (h : splitStep rng m s = .ok s')
    (hs : ∀ i, i < m → s.alloc i + s.weight i = nf i ∧ ia i ≤ s.alloc i) :
    ∀ i, i < m → s'.alloc i + s'.weight i = nf i ∧ ia i ≤ s'.alloc i := by
  simp only [splitStep] at h
  by_cases hp : ((List.range m).filter (fun i => 0 < s.weight i)).length = 0
  · rw [if_pos hp] at h
    exact absurd h (by simp)
  · rw [if_neg hp] at h
    injection h with h
    subst h
    set pos := (List.range m).filter (fun i => 0 < s.weight i) with hpos
    set i0 := pos.getD ((rng.next s.rngSt).1 % pos.length) 0 with hi0
    have hi0mem : i0 ∈ pos := by
      rw [hi0, List.getD_eq_getElem _ _ (Nat.mod_lt _ (Nat.pos_of_ne_zero hp))]
      exact List.getElem_mem _
    have hmf := List.mem_filter.mp (hpos ▸ hi0mem)
    have hi0lt : i0 < m := List.mem_range.mp hmf.1
    have hw0 : 0 < s.weight i0 := of_decide_eq_true hmf.2
    intro i hi
    by_cases hii : i = i0
    · subst hii
      simp only [Function.update_same]
      refine ⟨?_, ?_⟩
      · have := (hs i0 hi).1
        omega
      · have := (hs i0 hi).2
        omega
    · simp only [Function.update_noteq hii]
      exact hs i hi

/-- The distribution loop preserves the accounting invariant. -/
theorem splitLoop_inv (rng : RNG) (m : ℕ) (nf ia : ℕ → ℕ) :
    ∀ (t : ℕ) (s s' : SplitState), splitLoop rng m t s = .ok s' →
      (∀ i, i < m → s.alloc i + s.weight i = nf i ∧ ia i ≤ s.alloc i) →
      ∀ i, i < m → s'.alloc i + s'.weight i = nf i ∧ ia i ≤ s'.alloc i := by
  intro t
  induction t with
  | zero =>
    intro s s' h hs
    simp only [splitLoop] at h
    injection h with h
    subst h
    exact hs
  | succ t ih =>
    intro s s' h hs
    simp only [splitLoop] at h
    obtain ⟨s1, hstep, hrest⟩ := bind_ok_elim h
    exact ih s1 s' hrest (splitStep_inv rng m nf ia s s1 hstep hs)

end Respy

namespace Respy

/-- C5: whenever `_split_interpolation_points_evenly` returns an allocation,
every dense partition with at least 2 states is allocated at least 2 anchor
(not-interpolated) states, a partition with fewer than 2 states has all of
its states designated as anchors, no partition receives more anchors than it
has states, and the anchor indicator drawn by
`_get_not_interpolated_indicator` for a partition marks exactly the
allocated number of states as `True`. -/
theorem c5_allocation_and_indicator
    (rng : RNG) (seed : ℕ) (keys : List (ℕ × ℕ)) (budget : ℤ)
    (allocL : List (ℕ × ℕ)) (warned : Bool)
    (hok : splitInterpolationPointsEvenly rng seed keys budget = .ok (allocL, warned)) :
    allocL.length = keys.length ∧
    ∀ i, i < keys.length →
      (allocL.getD i (0, 0)).1 = (keys.getD i (0, 0)).1 ∧
      (2 ≤ (keys.getD i (0, 0)).2 → 2 ≤ (allocL.getD i (0, 0)).2) ∧
      ((keys.getD i (0, 0)).2 < 2 → (allocL.getD i (0, 0)).2 = (keys.getD i (0, 0)).2) ∧
      (allocL.getD i (0, 0)).2 ≤ (keys.getD i (0, 0)).2 ∧
      (∀ (rng2 : RNG) (seed2 st0 : ℕ), ∃ ind st',
        getNotInterpolatedIndicator rng2 (allocL.getD i (0, 0)).2
            (keys.getD i (0, 0)).2 seed2 st0 = .ok (ind, st') ∧
        ind.length = (keys.getD i (0, 0)).2 ∧
        countTrue ind = (allocL.getD i (0, 0)).2) := by
  simp only [splitInterpolationPointsEvenly] at hok
  by_cases hsur : (0:ℤ) < budget - 2 * keys.length
  · rw [if_pos hsur] at hok
    obtain ⟨s, hloop, hfn⟩ := bind_ok_elim hok
    have hinit : ∀ i, i < keys.length →
        (if 2 < (keys.getD i (0, 0)).2 then 2 else (keys.getD i (0, 0)).2)
            + ((keys.getD i (0, 0)).2 - 2) = (keys.getD i (0, 0)).2 ∧
          (if 2 < (keys.getD i (0, 0)).2 then 2 else (keys.getD i (0, 0)).2)
            ≤ (if 2 < (keys.getD i (0, 0)).2 then 2 else (keys.getD i (0, 0)).2) := by
      intro i _
      refine ⟨?_, le_rfl⟩
      split <;> omega
    have hinv := splitLoop_inv rng keys.length
      (fun i => (keys.getD i (0, 0)).2)
      (fun i => if 2 < (keys.getD i (0, 0)).2 then 2 else (keys.getD i (0, 0)).2)
      _ _ _ hloop hinit
    cases hlk : s.lastKey with
    | none =>
      rw [hlk] at hfn
      exact absurd hfn (by simp)
    | some p =>
      rw [hlk] at hfn
      simp only [Except.ok.injEq, Prod.mk.injEq] at hfn
      obtain ⟨hA, _⟩ := hfn
      subst hA
      constructor
      · simp
      · intro i hi
        rw [getD_map_range _ _ _ _ hi]
        have hsum := (hinv i hi).1
        have hge := (hinv i hi).2
        simp only at hsum hge
        have hmin : min 2 (keys.getD i (0, 0)).2 ≤ s.alloc i := by
          split at hge <;> omega
        refine ⟨rfl, ?_, ?_, ?_, ?_⟩
        · intro h2
          omega
        · intro h2
          omega
        · omega
        · intro rng2 seed2 st0
          exact getNotInterpolatedIndicator_spec rng2 (s.alloc i)
            (keys.getD i (0, 0)).2 seed2 st0 (by omega)
  · rw [if_neg hsur] at hok
    by_cases hm : keys.length = 0
    · rw [if_pos hm] at hok
      simp only [Except.ok.injEq, Prod.mk.injEq] at hok
      obtain ⟨hA, _⟩ := hok
      constructor
      · rw [← hA]
        simp [hm]
      · intro i hi
        rw [hm] at hi
        exact absurd hi (by omega)
    · rw [if_neg hm] at hok
      exact absurd hok (by simp)

end Respy

namespace Respy

/-- Witness for C5: two partitions of 5 and 1 states with budget 5; the run
succeeds, partition 0 gets 3 anchors, the single-state partition keeps its 1
state as anchor. -/
theorem c5_witness :
    ([((0:ℕ), (3:ℕ)), (1, 1)] : List (ℕ × ℕ)).length
        = ([((0:ℕ), (5:ℕ)), (1, 1)] : List (ℕ × ℕ)).length ∧
    ∀ i, i < ([((0:ℕ), (5:ℕ)), (1, 1)] : List (ℕ × ℕ)).length →
      ((([((0:ℕ), (3:ℕ)), (1, 1)] : List (ℕ × ℕ)).getD i (0, 0)).1
          = (([((0:ℕ), (5:ℕ)), (1, 1)] : List (ℕ × ℕ)).getD i (0, 0)).1) ∧
      (2 ≤ (([((0:ℕ), (5:ℕ)), (1, 1)] : List (ℕ × ℕ)).getD i (0, 0)).2 →
        2 ≤ (([((0:ℕ), (3:ℕ)), (1, 1)] : List (ℕ × ℕ)).getD i (0, 0)).2) ∧
      ((([((0:ℕ), (5:ℕ)), (1, 1)] : List (ℕ × ℕ)).getD i (0, 0)).2 < 2 →
        (([((0:ℕ), (3:ℕ)), (1, 1)] : List (ℕ × ℕ)).getD i (0, 0)).2
          = (([((0:ℕ), (5:ℕ)), (1, 1)] : List (ℕ × ℕ)).getD i (0, 0)).2) ∧
      ((([((0:ℕ), (3:ℕ)), (1, 1)] : List (ℕ × ℕ)).getD i (0, 0)).2
        ≤ (([((0:ℕ), (5:ℕ)), (1, 1)] : List (ℕ × ℕ)).getD i (0, 0)).2) ∧
      (∀ (rng2 : RNG) (seed2 st0 : ℕ), ∃ ind st',
        getNotInterpolatedIndicator rng2
            (([((0:ℕ), (3:ℕ)), (1, 1)] : List (ℕ × ℕ)).getD i (0, 0)).2
            (([((0:ℕ), (5:ℕ)), (1, 1)] : List (ℕ × ℕ)).getD i (0, 0)).2 seed2 st0
          = .ok (ind, st') ∧
        ind.length = (([((0:ℕ), (5:ℕ)), (1, 1)] : List (ℕ × ℕ)).getD i (0, 0)).2 ∧
        countTrue ind = (([((0:ℕ), (3:ℕ)), (1, 1)] : List (ℕ × ℕ)).getD i (0, 0)).2) :=
  c5_allocation_and_indicator ⟨fun _ => 0, fun st => (0, st)⟩ 0 [(0, 5), (1, 1)] 5
    [(0, 3), (1, 1)] false (by
      have h1 : splitInterpolationPointsEvenly ⟨fun _ => 0, fun st => (0, st)⟩ 0
          [(0, 5), (1, 1)] 5
          = .ok ([(0, 3), (1, 1)], decide (((1:ℕ):ℚ) / ((5:ℕ):ℚ) < 1 / 100)) := rfl
      have h2 : decide (((1:ℕ):ℚ) / ((5:ℕ):ℚ) < 1 / 100) = false :=
        decide_eq_false (by push_cast; norm_num)
      rw [h1, h2])

end Respy
